import Mathlib

/-! # Blog content pipeline: posts.go and handlers.go

A shallow embedding of `loadPosts`, `markdownToHTML`, `blogHandler` and
`postHandler`, together with the two Go standard-library string helpers the
pipeline calls (`strings.TrimSuffix`/`strings.TrimPrefix` and
`filepath.Base`).

Conventions.
* Go `string` values are Lean `String`s.  Every string operation in the
  pipeline cuts at the ASCII separators `/` and `.yaml`, so it is performed on
  the character list of the string.
* The file system, the YAML decoder and the Goldmark converter are outside the
  repository.  They are the fields of `Env`.
* The process-wide variable `posts` is the field `posts` of `World`.  The field
  `trace` of `World` is ghost state: it records, in order, every call the
  pipeline makes to one of them and every store into `posts`.
* A handler that ends in the call `renderTemplate(w, tmpl, data)` returns
  `Reply.render tmpl data`; what the template library then writes is not
  modelled.
* A nil map and an empty map read alike; both are the empty list.
* `log.Println` output is not modelled.
-/

namespace Blog

/-! ## Errors -/

/-- Go `error` values: a leaf error with a message, or the result of
`fmt.Errorf(pfx + "%w", inner)`. -/
inductive Error where
  | msg (text : String)
  | wrapf (pfx : String) (inner : Error)
  deriving DecidableEq, Repr

deriving instance DecidableEq for Except

/-- The method `Error()` of an error, as printed by the verb `%v`. -/
def Error.text : Error → String
  | .msg t => t
  | .wrapf pfx inner => pfx ++ inner.text

/-! ## strings.TrimSuffix, strings.TrimPrefix, filepath.Base -/

/-- Go `strings.HasSuffix`. -/
def HasSuffix (s suffix : String) : Bool :=
  suffix.data.isSuffixOf s.data

/-- Go `strings.HasPrefix`. -/
def HasPrefix (s pfx : String) : Bool :=
  pfx.data.isPrefixOf s.data

/-- Go `strings.TrimSuffix`: `s` without the trailing `suffix`, or `s` itself
when it does not end in `suffix`. -/
def TrimSuffix (s suffix : String) : String :=
  if HasSuffix s suffix then ⟨s.data.take (s.data.length - suffix.data.length)⟩ else s

/-- Go `strings.TrimPrefix`. -/
def TrimPrefix (s pfx : String) : String :=
  if HasPrefix s pfx then ⟨s.data.drop pfx.data.length⟩ else s

/-- The first loop of `filepath.Base`: strip trailing slashes. -/
def stripTrailingSlashes (path : List Char) : List Char :=
  (path.reverse.dropWhile (fun c => c == '/')).reverse

/-- The second loop of `filepath.Base`: keep what follows the last slash (the
whole path when it has none). -/
def lastElement (path : List Char) : List Char :=
  (path.reverse.takeWhile (fun c => c != '/')).reverse

/-- Go `filepath.Base` on a Unix path (separator `/`, no volume name). -/
def Base (path : String) : String :=
  if path.data = [] then "."
  else
    let last := lastElement (stripTrailingSlashes path.data)
    if last = [] then "/" else ⟨last⟩

/-! ## Data model -/

/-- The struct `Post` of posts.go. -/
structure Post where
  Title : String
  Excerpt : String
  Date : String
  MDContent : String
  HTMLContent : String
  Slug : String
  deriving DecidableEq, Repr

/-- The type `map[string]*Post`: an association list with at most one entry per
key, most recent store first. -/
abbrev Index := List (String × Post)

/-- The expression `make(map[string]*Post)`. -/
def Index.empty : Index := []

/-- The statement `m[k] = v`: any entry already stored under `k` is replaced. -/
def Index.set (m : Index) (k : String) (v : Post) : Index :=
  (k, v) :: m.filter (fun e => e.1 != k)

/-- The expression `v, ok := m[k]`; `none` is `ok == false`. -/
def Index.get (m : Index) (k : String) : Option Post :=
  (m.find? (fun e => e.1 == k)).map (fun e => e.2)

/-- The builtin `len(m)`. -/
def Index.len (m : Index) : Nat := m.length

/-- Calls that leave the function `loadPosts`, in the order they are made. -/
inductive Event where
  | glob (pattern : String)
  | readFile (file : String)
  | unmarshal (yamlFile : String)
  | markdownToHTML (markdown : String)
  | store (slug : String) (post : Post)
  deriving DecidableEq, Repr

/-- The file system and the two libraries the pipeline calls. -/
structure Env where
  /-- The call `filepath.Glob(pattern)`. -/
  glob : String → Except Error (List String)
  /-- The call `os.ReadFile(file)`. -/
  readFile : String → Except Error String
  /-- The call `yaml.Unmarshal(yamlFile, &Post{})`: the decoded struct. -/
  unmarshal : String → Except Error Post
  /-- The call `goldmark.New().Convert(markdown, &buf)`: the buffer. -/
  convert : String → Except Error String

/-- The mutable state: the package variable `posts` and the ghost trace. -/
structure World where
  posts : Index
  trace : List Event
  deriving DecidableEq, Repr

/-! ## posts.go -/

/-- The function `markdownToHTML` of posts.go. -/
def markdownToHTML (env : Env) (markdown : String) : Except Error String :=
  match env.convert markdown with
  | .error err => .error err
  | .ok buf => .ok buf

/-- One iteration of the `for _, file := range files` loop of `loadPosts`.
The second component is the error of an early `return`, `none` when the
iteration runs to its end. -/
def loadFile (env : Env) (file : String) (w : World) : World × Option Error :=
  let w := { w with trace := w.trace ++ [Event.readFile file] }
  match env.readFile file with
  | .error err => (w, some (.wrapf "Error reading file: " err))
  | .ok yamlFile =>
    let w := { w with trace := w.trace ++ [Event.unmarshal yamlFile] }
    match env.unmarshal yamlFile with
    | .error err => (w, some (.wrapf "Error unmarshalling file: " err))
    | .ok postData =>
      let slug := TrimSuffix (Base file) ".yaml"
      let postData := { postData with Slug := slug }
      let w := { w with trace := w.trace ++ [Event.markdownToHTML postData.MDContent] }
      match markdownToHTML env postData.MDContent with
      | .error err => (w, some (.wrapf "Error converting markdown to HTML: " err))
      | .ok htmlContent =>
        let postData := { postData with HTMLContent := htmlContent }
        ({ posts := w.posts.set slug postData,
           trace := w.trace ++ [Event.store slug postData] }, none)

/-- The loop `for _, file := range files` of `loadPosts`. -/
def loadLoop (env : Env) : List String → World → World × Option Error
  | [], w => (w, none)
  | file :: rest, w =>
    match loadFile env file w with
    | (w, some err) => (w, some err)
    | (w, none) => loadLoop env rest w

/-- The function `loadPosts` of posts.go; `none` is the result `nil`. -/
def loadPosts (env : Env) (w : World) : World × Option Error :=
  let w : World := { posts := Index.empty, trace := w.trace ++ [Event.glob "posts/*.yaml"] }
  match env.glob "posts/*.yaml" with
  | .error err => (w, some (.wrapf "Error reading files: " err))
  | .ok files => loadLoop env files w

/-! ## handlers.go -/

/-- The parts of `*http.Request` the handlers read. -/
structure Request where
  Method : String
  Path : String
  deriving DecidableEq, Repr

/-- The argument `data any` of `renderTemplate`. -/
inductive TemplateData where
  | posts (all : Index)
  | post (one : Post)
  deriving DecidableEq, Repr

/-- What a handler does with its `http.ResponseWriter`. -/
inductive Reply where
  /-- The call `http.NotFound(w, r)`: status 404. -/
  | notFound
  /-- The calls `w.WriteHeader(status)` and `w.Write(body)`. -/
  | write (status : Nat) (body : String)
  /-- The call `http.Redirect(w, r, url, status)`. -/
  | redirect (url : String) (status : Nat)
  /-- The call `renderTemplate(w, tmpl, data)`. -/
  | render (tmpl : String) (data : TemplateData)
  deriving DecidableEq, Repr

/-- The status code a reply sends, when the handler itself fixes it. -/
def Reply.status? : Reply → Option Nat
  | .notFound => some 404
  | .write status _ => some status
  | .redirect _ status => some status
  | .render _ _ => none

def MethodGet : String := "GET"
def StatusSeeOther : Nat := 303
def StatusNotFound : Nat := 404
def StatusMethodNotAllowed : Nat := 405
def StatusInternalServerError : Nat := 500

/-- The function `blogHandler` of handlers.go. -/
def blogHandler (env : Env) (r : Request) (w : World) : Reply × World :=
  if r.Path ≠ "/" then (.notFound, w)
  else if r.Method ≠ MethodGet then
    (.write StatusMethodNotAllowed "Method not allowed", w)
  else
    match loadPosts env w with
    | (w, some err) =>
      (.write StatusInternalServerError ("Error loading posts: " ++ err.text), w)
    | (w, none) => (.render "blog" (.posts w.posts), w)

/-- The function `postHandler` of handlers.go. -/
def postHandler (env : Env) (r : Request) (w : World) : Reply × World :=
  if r.Method ≠ MethodGet then
    (.write StatusMethodNotAllowed "Method not allowed", w)
  else
    match loadPosts env w with
    | (w, some err) =>
      (.write StatusInternalServerError ("Error loading posts: " ++ err.text), w)
    | (w, none) =>
      let slug := TrimPrefix r.Path "/post/"
      if slug = "" then (.redirect "/" StatusSeeOther, w)
      else
        match w.posts.get slug with
        | none => (.write StatusNotFound "Post not found", w)
        | some post => (.render "posts" (.post post), w)

/-! ## Sample content stores -/

/-- A decoded post with the given title and body, the two runtime fields
empty. -/
def samplePost (title body : String) : Post :=
  { Title := title, Excerpt := "", Date := "2024-01-01", MDContent := body,
    HTMLContent := "", Slug := "" }

/-- A store of well-formed files: every file reads as its own path, decodes
to a post whose decoder already filled `Slug` and `HTMLContent`, and every
body converts. -/
def goodEnv (files : List String) : Env where
  glob := fun _ => .ok files
  readFile := fun file => .ok file
  unmarshal := fun yamlFile =>
    .ok { samplePost yamlFile ("# " ++ yamlFile) with Slug := "from-yaml", HTMLContent := "<b>stale</b>" }
  convert := fun markdown => .ok ("<p>" ++ markdown ++ "</p>")

/-- A store in which the file `posts/b.yaml` is not valid YAML. -/
def badEnv (files : List String) : Env where
  glob := fun _ => .ok files
  readFile := fun file => .ok file
  unmarshal := fun yamlFile =>
    if yamlFile = "posts/b.yaml" then .error (.msg "yaml: did not find expected key")
    else .ok (samplePost yamlFile ("# " ++ yamlFile))
  convert := fun markdown => .ok ("<p>" ++ markdown ++ "</p>")

/-- A prior state of the process whose index holds one post. -/
def staleWorld : World :=
  { posts := [("old", { samplePost "Old" "old body" with Slug := "old", HTMLContent := "<p>old body</p>" })],
    trace := [] }

/-- The state of a freshly started process. -/
def freshWorld : World := { posts := [], trace := [] }


/-! ## Derived notions used to state the properties -/

/-- The slug `loadPosts` derives from a path (line 94 of posts.go). -/
def slugOf (file : String) : String := TrimSuffix (Base file) ".yaml"

/-- The value one loop iteration computes for `file`, without the state: the
completed post, or the wrapped error of the first of the three steps (read,
decode, convert) that fails. -/
def fileOutcome (env : Env) (file : String) : Except Error Post :=
  match env.readFile file with
  | .error err => .error (.wrapf "Error reading file: " err)
  | .ok yamlFile =>
    match env.unmarshal yamlFile with
    | .error err => .error (.wrapf "Error unmarshalling file: " err)
    | .ok postData =>
      match markdownToHTML env postData.MDContent with
      | .error err => .error (.wrapf "Error converting markdown to HTML: " err)
      | .ok htmlContent =>
        .ok { postData with Slug := slugOf file, HTMLContent := htmlContent }

/-- Reading, decoding or converting `file` fails: the wrapped error, `none`
when the three steps succeed. -/
def fileError (env : Env) (file : String) : Option Error :=
  match fileOutcome env file with
  | .error err => some err
  | .ok _ => none

/-- The calls one loop iteration makes for `file`. -/
def fileEvents (env : Env) (file : String) : List Event :=
  (loadFile env file { posts := [], trace := [] }).1.trace

/-- The stores a pass over `files` performs on the map `m`, one per file that
processes successfully. -/
def storeAll (env : Env) (files : List String) (m : Index) : Index :=
  files.foldl
    (fun acc file =>
      match fileOutcome env file with
      | .ok post => acc.set (slugOf file) post
      | .error _ => acc)
    m

/-- The keys of a map. -/
def Index.keys (m : Index) : List String := m.map (fun e => e.1)

/-- The paths the call `filepath.Glob("posts/*.yaml")` can return: `posts/`
followed by a file name, which holds no slash, that ends in `.yaml`. -/
def matchesPostsGlob (file : String) : Bool :=
  HasPrefix file "posts/" &&
  ((TrimPrefix file "posts/").data.all (fun c => c != '/') &&
   HasSuffix (TrimPrefix file "posts/") ".yaml")

/-! ## Facts about the string helpers -/

theorem hasSuffix_append (s suffix : String) : HasSuffix (s ++ suffix) suffix = true := by
  simp [HasSuffix]

theorem trimSuffix_append (s suffix : String) : TrimSuffix (s ++ suffix) suffix = s := by
  simp [TrimSuffix, hasSuffix_append]

theorem trimPrefix_append (pfx s : String) : TrimPrefix (pfx ++ s) pfx = s := by
  simp [TrimPrefix, HasPrefix]

theorem stripTrailingSlashes_of_last (d n : List Char) (hn : n ≠ [])
    (hs : ∀ c ∈ n, c ≠ '/') :
    stripTrailingSlashes (d ++ '/' :: n) = d ++ '/' :: n := by
  unfold stripTrailingSlashes
  have hrev : (d ++ '/' :: n).reverse = n.reverse ++ '/' :: d.reverse := by simp
  rw [hrev]
  cases hr : n.reverse with
  | nil => exact absurd (List.reverse_eq_nil_iff.mp hr) hn
  | cons c cs =>
    have hc : c ≠ '/' := hs c (by
      have : c ∈ n.reverse := by rw [hr]; exact List.mem_cons_self _ _
      exact List.mem_reverse.mp this)
    have : List.dropWhile (fun c => c == '/') (c :: cs ++ '/' :: d.reverse)
        = c :: cs ++ '/' :: d.reverse := by
      have hb : (c == '/') = false := by simpa using hc
      simp [List.dropWhile, hb]
    rw [this, ← hr, ← hrev, List.reverse_reverse]

theorem lastElement_of_last (d n : List Char) (hs : ∀ c ∈ n, c ≠ '/') :
    lastElement (d ++ '/' :: n) = n := by
  unfold lastElement
  have hrev : (d ++ '/' :: n).reverse = n.reverse ++ '/' :: d.reverse := by simp
  rw [hrev, List.takeWhile_append_of_pos]
  · simp
  · intro c hc
    simpa using hs c (List.mem_reverse.mp hc)

theorem base_join (dir name : String) (hn : name.data ≠ [])
    (hs : ∀ c ∈ name.data, c ≠ '/') : Base (dir ++ "/" ++ name) = name := by
  have hd : (dir ++ "/" ++ name).data = dir.data ++ '/' :: name.data := by
    simp [String.data_append]
  unfold Base
  rw [hd, stripTrailingSlashes_of_last _ _ hn hs, lastElement_of_last _ _ hs]
  simp [hn]


/-! ## Facts about the map -/

theorem Index.get_set_self (m : Index) (k : String) (v : Post) :
    (m.set k v).get k = some v := by
  simp [Index.set, Index.get]

theorem Index.find_filter_ne (m : Index) (k k' : String) (h : k ≠ k') :
    (m.filter (fun e => e.1 != k)).find? (fun e => e.1 == k')
      = m.find? (fun e => e.1 == k') := by
  induction m with
  | nil => rfl
  | cons e rest ih =>
    by_cases he : e.1 = k'
    · have hne : e.1 ≠ k := fun h' => h (h'.symm.trans he)
      have hb : (e.1 != k) = true := by simpa using hne
      have hb2 : (e.1 == k') = true := by simpa using he
      rw [List.filter_cons, hb]
      simp [List.find?_cons, hb2]
    · have hb' : (e.1 == k') = false := by simpa using he
      by_cases hek : e.1 = k
      · have hb : (e.1 != k) = false := by simpa using hek
        rw [List.filter_cons, hb]
        simpa [List.find?_cons, hb'] using ih
      · have hb : (e.1 != k) = true := by simpa using hek
        rw [List.filter_cons, hb]
        simpa [List.find?_cons, hb'] using ih

theorem Index.get_set_ne (m : Index) (k k' : String) (v : Post) (h : k ≠ k') :
    (m.set k v).get k' = m.get k' := by
  have hk : (k == k') = false := by simpa using h
  simp only [Index.set, Index.get, List.find?_cons, hk]
  rw [Index.find_filter_ne m k k' h]

theorem Index.mem_set (m : Index) (k : String) (v : Post) (e : String × Post) :
    e ∈ m.set k v ↔ e = (k, v) ∨ (e ∈ m ∧ e.1 ≠ k) := by
  simp [Index.set]

theorem Index.mem_of_get (m : Index) (k : String) (p : Post) (h : m.get k = some p) :
    (k, p) ∈ m := by
  unfold Index.get at h
  cases hf : m.find? (fun e => e.1 == k) with
  | none => simp [hf] at h
  | some e =>
    rw [hf] at h
    simp at h
    have hk : e.1 = k := by simpa using List.find?_some hf
    have hm := List.mem_of_find?_eq_some hf
    rcases e with ⟨a, b⟩
    simp at hk h
    subst hk; subst h
    exact hm

theorem Index.get_eq_none (m : Index) (k : String) (h : k ∉ m.keys) : m.get k = none := by
  unfold Index.get
  have : m.find? (fun e => e.1 == k) = none := by
    rw [List.find?_eq_none]
    intro e he hk
    apply h
    simp only [Index.keys, List.mem_map]
    exact ⟨e, he, by simpa using hk⟩
  simp [this]

theorem Index.keys_set (m : Index) (k : String) (v : Post) :
    (m.set k v).keys = k :: m.keys.filter (fun a => a != k) := by
  simp [Index.set, Index.keys, List.filter_map, Function.comp_def]

theorem Index.nodup_set (m : Index) (k : String) (v : Post) (h : m.keys.Nodup) :
    (m.set k v).keys.Nodup := by
  rw [Index.keys_set]
  refine List.nodup_cons.mpr ⟨?_, h.filter _⟩
  simp

theorem Index.length_set (m : Index) (k : String) (v : Post) (h : k ∉ m.keys) :
    (m.set k v).length = m.length + 1 := by
  have : m.filter (fun e => e.1 != k) = m := by
    rw [List.filter_eq_self]
    intro e he
    have : e.1 ≠ k := fun hk => h (by
      simp only [Index.keys, List.mem_map]; exact ⟨e, he, hk⟩)
    simpa using this
  simp [Index.set, this]

theorem Index.count_key (m : Index) (k : String) (p : Post) (hn : m.keys.Nodup)
    (h : m.get k = some p) : (m.filter (fun e => e.1 == k)).length = 1 := by
  induction m with
  | nil => simp [Index.get] at h
  | cons e rest ih =>
    have hn' : e.1 ∉ Index.keys rest ∧ (Index.keys rest).Nodup := by
      simpa [Index.keys] using hn
    by_cases hk : e.1 = k
    · have hnone : rest.filter (fun e => e.1 == k) = [] := by
        rw [List.filter_eq_nil_iff]
        intro a ha hak
        apply hn'.1
        simp only [Index.keys, List.mem_map]
        exact ⟨a, ha, by rw [hk]; simpa using hak⟩
      simp [List.filter_cons, hk, hnone]
    · have hb : (e.1 == k) = false := by simpa using hk
      have hrest : Index.get rest k = some p := by
        simpa [Index.get, List.find?_cons, hb] using h
      simpa [List.filter_cons, hb] using ih hn'.2 hrest


/-! ## Facts about the loop of `loadPosts` -/

theorem loadFile_eq (env : Env) (file : String) (w : World) :
    loadFile env file w =
      match fileOutcome env file with
      | .error err => ({ posts := w.posts, trace := w.trace ++ fileEvents env file }, some err)
      | .ok post =>
        ({ posts := w.posts.set (slugOf file) post,
           trace := w.trace ++ fileEvents env file }, none) := by
  unfold loadFile fileOutcome fileEvents loadFile slugOf
  cases hread : env.readFile file with
  | error err => simp
  | ok yamlFile =>
    simp only []
    cases hdec : env.unmarshal yamlFile with
    | error err => simp
    | ok postData =>
      simp only []
      cases hmd : markdownToHTML env postData.MDContent with
      | error err => simp
      | ok htmlContent => simp

theorem fileError_eq_none (env : Env) (file : String) :
    fileError env file = none ↔ ∃ post, fileOutcome env file = .ok post := by
  unfold fileError
  cases fileOutcome env file <;> simp

theorem fileOutcome_ok (env : Env) (file yamlFile : String) (postData : Post)
    (htmlContent : String) (hread : env.readFile file = .ok yamlFile)
    (hdec : env.unmarshal yamlFile = .ok postData)
    (hmd : markdownToHTML env postData.MDContent = .ok htmlContent) :
    fileOutcome env file
      = .ok { postData with Slug := slugOf file, HTMLContent := htmlContent } := by
  simp [fileOutcome, hread, hdec, hmd]

theorem fileOutcome_ok_inv (env : Env) (file : String) (post : Post)
    (h : fileOutcome env file = .ok post) :
    ∃ yamlFile postData htmlContent, env.readFile file = .ok yamlFile ∧
      env.unmarshal yamlFile = .ok postData ∧
      markdownToHTML env postData.MDContent = .ok htmlContent ∧
      post = { postData with Slug := slugOf file, HTMLContent := htmlContent } := by
  unfold fileOutcome at h
  cases hread : env.readFile file with
  | error err => simp [hread] at h
  | ok yamlFile =>
    cases hdec : env.unmarshal yamlFile with
    | error err => simp [hread, hdec] at h
    | ok postData =>
      cases hmd : markdownToHTML env postData.MDContent with
      | error err => simp [hread, hdec, hmd] at h
      | ok htmlContent =>
        simp [hread, hdec, hmd] at h
        exact ⟨yamlFile, postData, htmlContent, rfl, hdec, hmd, h.symm⟩

theorem storeAll_cons (env : Env) (file : String) (rest : List String) (m : Index) :
    storeAll env (file :: rest) m =
      storeAll env rest
        (match fileOutcome env file with
         | .ok post => m.set (slugOf file) post
         | .error _ => m) := rfl

theorem storeAll_append (env : Env) (xs ys : List String) (m : Index) :
    storeAll env (xs ++ ys) m = storeAll env ys (storeAll env xs m) := by
  simp [storeAll, List.foldl_append]

theorem loadLoop_ok (env : Env) (files : List String) (w : World)
    (h : ∀ f ∈ files, fileError env f = none) :
    loadLoop env files w =
      ({ posts := storeAll env files w.posts,
         trace := w.trace ++ files.flatMap (fileEvents env) }, none) := by
  induction files generalizing w with
  | nil => simp [loadLoop, storeAll]
  | cons file rest ih =>
    obtain ⟨post, hpost⟩ := (fileError_eq_none env file).mp (h file (List.mem_cons_self _ _))
    have hrest : ∀ f ∈ rest, fileError env f = none :=
      fun f hf => h f (List.mem_cons_of_mem _ hf)
    rw [loadLoop, loadFile_eq, hpost]
    simp only
    rw [ih _ hrest, storeAll_cons, hpost]
    simp [List.flatMap_cons]

theorem loadLoop_fail (env : Env) (pre post : List String) (file : String) (err : Error)
    (w : World) (hpre : ∀ f ∈ pre, fileError env f = none)
    (hfile : fileError env file = some err) :
    loadLoop env (pre ++ file :: post) w =
      ({ posts := storeAll env pre w.posts,
         trace := w.trace ++ (pre ++ [file]).flatMap (fileEvents env) }, some err) := by
  induction pre generalizing w with
  | nil =>
    have hout : fileOutcome env file = .error err := by
      unfold fileError at hfile
      cases ho : fileOutcome env file with
      | error e => rw [ho] at hfile; simp at hfile; rw [hfile]
      | ok p => rw [ho] at hfile; simp at hfile
    simp only [List.nil_append]
    rw [loadLoop, loadFile_eq, hout]
    simp [storeAll]
  | cons g rest ih =>
    obtain ⟨p, hp⟩ := (fileError_eq_none env g).mp (hpre g (List.mem_cons_self _ _))
    have hrest : ∀ f ∈ rest, fileError env f = none :=
      fun f hf => hpre f (List.mem_cons_of_mem _ hf)
    rw [List.cons_append, loadLoop, loadFile_eq, hp]
    simp only
    rw [ih _ hrest, storeAll_cons, hp]
    simp [List.flatMap_cons]

theorem exists_first_failure (env : Env) (files : List String)
    (h : ∃ f ∈ files, fileError env f ≠ none) :
    ∃ pre file post err, files = pre ++ file :: post ∧
      (∀ g ∈ pre, fileError env g = none) ∧ fileError env file = some err := by
  induction files with
  | nil => simp at h
  | cons g rest ih =>
    cases hg : fileError env g with
    | some err => exact ⟨[], g, rest, err, rfl, by simp, hg⟩
    | none =>
      obtain ⟨f, hf, hne⟩ := h
      have hfr : f ∈ rest := by
        rcases List.mem_cons.mp hf with h1 | h1
        · subst h1; exact absurd hg hne
        · exact h1
      obtain ⟨pre, file, post, err, hsplit, hpre, hfile⟩ := ih ⟨f, hfr, hne⟩
      refine ⟨g :: pre, file, post, err, by simp [hsplit], ?_, hfile⟩
      intro x hx
      rcases List.mem_cons.mp hx with h1 | h1
      · subst h1; exact hg
      · exact hpre x h1

theorem loadLoop_none_iff (env : Env) (files : List String) (w : World) :
    (loadLoop env files w).2 = none ↔ ∀ f ∈ files, fileError env f = none := by
  constructor
  · intro h
    by_contra hcon
    push_neg at hcon
    obtain ⟨pre, file, post, err, hsplit, hpre, hfile⟩ := exists_first_failure env files hcon
    rw [hsplit, loadLoop_fail env pre post file err w hpre hfile] at h
    simp at h
  · intro h
    rw [loadLoop_ok env files w h]

/-! ## Facts about the stores of one pass -/

theorem storeAll_get_of_ne (env : Env) (files : List String) (m : Index) (s : String)
    (h : ∀ f ∈ files, slugOf f ≠ s) : (storeAll env files m).get s = m.get s := by
  induction files generalizing m with
  | nil => rfl
  | cons file rest ih =>
    have hrest : ∀ f ∈ rest, slugOf f ≠ s := fun f hf => h f (List.mem_cons_of_mem _ hf)
    rw [storeAll_cons, ih _ hrest]
    cases fileOutcome env file with
    | error err => rfl
    | ok post => exact Index.get_set_ne m _ _ post (h file (List.mem_cons_self _ _))

theorem storeAll_get_last (env : Env) (pre post : List String) (file : String) (p : Post)
    (m : Index) (hfile : fileOutcome env file = .ok p)
    (hpost : ∀ g ∈ post, slugOf g ≠ slugOf file) :
    (storeAll env (pre ++ file :: post) m).get (slugOf file) = some p := by
  rw [storeAll_append, storeAll_cons, hfile, storeAll_get_of_ne env post _ _ hpost]
  exact Index.get_set_self _ _ _

theorem storeAll_mem (env : Env) (files : List String) (m : Index) (e : String × Post)
    (h : e ∈ storeAll env files m) :
    e ∈ m ∨ ∃ f ∈ files, e.1 = slugOf f ∧ fileOutcome env f = .ok e.2 := by
  induction files generalizing m with
  | nil => exact Or.inl h
  | cons file rest ih =>
    rw [storeAll_cons] at h
    rcases ih _ h with h1 | ⟨f, hf, h1⟩
    · cases ho : fileOutcome env file with
      | error err => rw [ho] at h1; exact Or.inl h1
      | ok post =>
        rw [ho] at h1
        rcases (Index.mem_set m _ post e).mp h1 with h2 | h2
        · refine Or.inr ⟨file, List.mem_cons_self _ _, ?_, ?_⟩
          · rw [h2]
          · rw [h2, ho]
        · exact Or.inl h2.1
    · exact Or.inr ⟨f, List.mem_cons_of_mem _ hf, h1⟩

theorem storeAll_nodup (env : Env) (files : List String) (m : Index) (h : m.keys.Nodup) :
    (storeAll env files m).keys.Nodup := by
  induction files generalizing m with
  | nil => exact h
  | cons file rest ih =>
    rw [storeAll_cons]
    apply ih
    cases fileOutcome env file with
    | error err => exact h
    | ok post => exact Index.nodup_set m _ post h

theorem storeAll_keys (env : Env) (files : List String) (m : Index) (k : String)
    (h : k ∈ (storeAll env files m).keys) : k ∈ m.keys ∨ ∃ f ∈ files, k = slugOf f := by
  simp only [Index.keys, List.mem_map] at h
  obtain ⟨e, he, hk⟩ := h
  rcases storeAll_mem env files m e he with h1 | ⟨f, hf, h1, _⟩
  · left
    simp only [Index.keys, List.mem_map]
    exact ⟨e, h1, hk⟩
  · exact Or.inr ⟨f, hf, by rw [← hk, h1]⟩

theorem storeAll_length (env : Env) (files : List String) (m : Index)
    (hok : ∀ f ∈ files, fileError env f = none)
    (hnd : (files.map slugOf).Nodup) (hfresh : ∀ f ∈ files, slugOf f ∉ m.keys) :
    (storeAll env files m).length = m.length + files.length := by
  induction files generalizing m with
  | nil => rfl
  | cons file rest ih =>
    obtain ⟨post, hpost⟩ := (fileError_eq_none env file).mp (hok file (List.mem_cons_self _ _))
    have hnd' : slugOf file ∉ rest.map slugOf ∧ (rest.map slugOf).Nodup := by
      simpa using hnd
    rw [storeAll_cons, hpost]
    simp only
    rw [ih _ (fun f hf => hok f (List.mem_cons_of_mem _ hf)) hnd'.2]
    · rw [Index.length_set m _ post (hfresh file (List.mem_cons_self _ _))]
      simp only [List.length_cons]; omega
    · intro f hf hmem
      rw [Index.keys_set] at hmem
      rcases List.mem_cons.mp hmem with h1 | h1
      · exact hnd'.1 (List.mem_map.mpr ⟨f, hf, h1⟩)
      · exact hfresh f (List.mem_cons_of_mem _ hf) (List.mem_of_mem_filter h1)


theorem storeAll_snoc (env : Env) (files : List String) (file : String) (m : Index) :
    storeAll env (files ++ [file]) m =
      match fileOutcome env file with
      | .ok post => (storeAll env files m).set (slugOf file) post
      | .error _ => storeAll env files m := by
  rw [storeAll_append]
  rfl

theorem storeAll_get_some (env : Env) (files : List String) (m : Index) (f : String)
    (hok : ∀ g ∈ files, fileError env g = none) (hf : f ∈ files) :
    ∃ g ∈ files, ∃ p, slugOf g = slugOf f ∧ fileOutcome env g = .ok p ∧
      (storeAll env files m).get (slugOf f) = some p := by
  induction files using List.reverseRecOn with
  | nil => simp at hf
  | append_singleton xs x ih =>
    obtain ⟨px, hpx⟩ := (fileError_eq_none env x).mp (hok x (by simp))
    rw [storeAll_snoc, hpx]
    by_cases hx : slugOf x = slugOf f
    · refine ⟨x, by simp, px, hx, hpx, ?_⟩
      simp only
      rw [← hx]
      exact Index.get_set_self _ _ _
    · have hfx : f ∈ xs := by
        rcases List.mem_append.mp hf with h1 | h1
        · exact h1
        · simp at h1; subst h1; exact absurd rfl hx
      obtain ⟨g, hg, p, hgs, hgp, hget⟩ :=
        ih (fun g hg => hok g (List.mem_append_left _ hg)) hfx
      refine ⟨g, List.mem_append_left _ hg, p, hgs, hgp, ?_⟩
      simp only
      rw [Index.get_set_ne _ _ _ _ hx]
      exact hget

/-! ## Facts about `loadPosts` -/

theorem loadPosts_glob (env : Env) (w : World) (files : List String)
    (hglob : env.glob "posts/*.yaml" = .ok files) :
    loadPosts env w =
      loadLoop env files
        { posts := Index.empty, trace := w.trace ++ [Event.glob "posts/*.yaml"] } := by
  simp [loadPosts, hglob]

theorem loadPosts_none_iff (env : Env) (w : World) (files : List String)
    (hglob : env.glob "posts/*.yaml" = .ok files) :
    (loadPosts env w).2 = none ↔ ∀ f ∈ files, fileError env f = none := by
  rw [loadPosts_glob env w files hglob]
  exact loadLoop_none_iff env files _

theorem loadPosts_ok (env : Env) (w : World) (files : List String)
    (hglob : env.glob "posts/*.yaml" = .ok files)
    (hok : ∀ f ∈ files, fileError env f = none) :
    loadPosts env w =
      ({ posts := storeAll env files Index.empty,
         trace := w.trace ++ Event.glob "posts/*.yaml" :: files.flatMap (fileEvents env) },
       none) := by
  rw [loadPosts_glob env w files hglob, loadLoop_ok env files _ hok]
  simp

theorem loadPosts_fail (env : Env) (w : World) (pre post : List String) (file : String)
    (err : Error) (hglob : env.glob "posts/*.yaml" = .ok (pre ++ file :: post))
    (hpre : ∀ f ∈ pre, fileError env f = none) (hfile : fileError env file = some err) :
    loadPosts env w =
      ({ posts := storeAll env pre Index.empty,
         trace := w.trace ++
           Event.glob "posts/*.yaml" :: (pre ++ [file]).flatMap (fileEvents env) },
       some err) := by
  rw [loadPosts_glob env w _ hglob, loadLoop_fail env pre post file err _ hpre hfile]
  simp

theorem loadPosts_posts_err (env : Env) (w1 w2 : World) :
    (loadPosts env w1).2 = (loadPosts env w2).2 ∧
      (loadPosts env w1).1.posts = (loadPosts env w2).1.posts := by
  cases hglob : env.glob "posts/*.yaml" with
  | error err => simp [loadPosts, hglob]
  | ok files =>
    by_cases hfail : ∃ f ∈ files, fileError env f ≠ none
    · obtain ⟨pre, file, post, err, hsplit, hpre, hfile⟩ :=
        exists_first_failure env files hfail
      subst hsplit
      rw [loadPosts_fail env w1 pre post file err hglob hpre hfile,
        loadPosts_fail env w2 pre post file err hglob hpre hfile]
      exact ⟨rfl, rfl⟩
    · push_neg at hfail
      rw [loadPosts_ok env w1 files hglob hfail, loadPosts_ok env w2 files hglob hfail]
      exact ⟨rfl, rfl⟩

theorem empty_nodup : Index.empty.keys.Nodup := List.nodup_nil

/-! ## Facts about the paths of the directory `posts/` -/

theorem hasPrefix_split (s pfx : String) (h : HasPrefix s pfx = true) :
    s = pfx ++ TrimPrefix s pfx := by
  have hp : pfx.data <+: s.data := by simpa [HasPrefix] using h
  apply String.ext
  simp only [TrimPrefix, h, if_true, String.data_append]
  exact (List.prefix_iff_eq_append.mp hp).symm

theorem hasSuffix_split (s suffix : String) (h : HasSuffix s suffix = true) :
    s = TrimSuffix s suffix ++ suffix := by
  have hp : suffix.data <:+ s.data := by simpa [HasSuffix] using h
  apply String.ext
  simp only [TrimSuffix, h, if_true, String.data_append]
  exact (List.suffix_iff_eq_append.mp hp).symm

theorem path_of_matchesPostsGlob (file : String) (h : matchesPostsGlob file = true) :
    file = "posts/" ++ (slugOf file ++ ".yaml") := by
  simp only [matchesPostsGlob, Bool.and_eq_true] at h
  obtain ⟨hpre, hslash, hsuf⟩ := h
  have hfile := hasPrefix_split file "posts/" hpre
  have hname := hasSuffix_split (TrimPrefix file "posts/") ".yaml" hsuf
  have hne : (TrimPrefix file "posts/").data ≠ [] := by
    intro h0
    have := congrArg String.data hname
    rw [String.data_append, h0] at this
    simp at this
  have hs : ∀ c ∈ (TrimPrefix file "posts/").data, c ≠ '/' := by
    intro c hc
    simpa using (List.all_eq_true.mp hslash) c hc
  have hbase : Base file = TrimPrefix file "posts/" := by
    have hj := base_join "posts" (TrimPrefix file "posts/") hne hs
    have hlit : ("posts" ++ "/" : String) = "posts/" := by decide
    rw [hlit, ← hfile] at hj
    exact hj
  have hslug : slugOf file ++ ".yaml" = TrimPrefix file "posts/" := by
    unfold slugOf
    rw [hbase]
    exact hname.symm
  rw [hslug]
  exact hfile

theorem slugOf_injOn (f g : String) (hf : matchesPostsGlob f = true)
    (hg : matchesPostsGlob g = true) (h : slugOf f = slugOf g) : f = g := by
  rw [path_of_matchesPostsGlob f hf, path_of_matchesPostsGlob g hg, h]


/-! ## Properties of the pipeline -/

/-- C1: for a file whose base name is `X` followed by `.yaml`, whatever post the
decoder produced for it (also one whose `Slug` the decoder filled), the loop
iteration stores under the key `X` a post whose `Slug` is `X`; and after a
successful `loadPosts` that enumerated the file, the index holds under `X` a
post whose `Slug` is `X`. -/
theorem slug_is_base_name_without_extension (env : Env) (file X yamlFile : String)
    (postData : Post) (htmlContent : String)
    (hbase : Base file = X ++ ".yaml")
    (hread : env.readFile file = .ok yamlFile)
    (hdec : env.unmarshal yamlFile = .ok postData)
    (hmd : markdownToHTML env postData.MDContent = .ok htmlContent) :
    (∀ w0 : World,
      loadFile env file w0 =
        ({ posts := w0.posts.set X { postData with Slug := X, HTMLContent := htmlContent },
           trace := w0.trace ++
             [Event.readFile file, Event.unmarshal yamlFile,
              Event.markdownToHTML postData.MDContent,
              Event.store X { postData with Slug := X, HTMLContent := htmlContent }] },
         none)) ∧
    (∀ (w : World) (files : List String), env.glob "posts/*.yaml" = .ok files →
      file ∈ files → (loadPosts env w).2 = none →
      ∃ p, (loadPosts env w).1.posts.get X = some p ∧ p.Slug = X) := by
  have hslug : slugOf file = X := by
    unfold slugOf
    rw [hbase]
    exact trimSuffix_append X ".yaml"
  constructor
  · intro w0
    have hs : TrimSuffix (Base file) ".yaml" = X := hslug
    simp [loadFile, hread, hdec, hmd, hs]
  · intro w files hglob hfile hok
    have hall := (loadPosts_none_iff env w files hglob).mp hok
    obtain ⟨g, _, p, hgs, hgp, hget⟩ := storeAll_get_some env files Index.empty file hall hfile
    obtain ⟨y, d, h, _, _, _, hp⟩ := fileOutcome_ok_inv env g p hgp
    rw [loadPosts_ok env w files hglob hall]
    refine ⟨p, ?_, ?_⟩
    · rw [← hslug]; exact hget
    · rw [hp]; simp only; rw [hgs, hslug]

/-- Instance of C1: `posts/hello-world.yaml` yields `hello-world` although the
decoder of the sample store fills `Slug` with `from-yaml`. -/
theorem slug_is_base_name_without_extension_witness :
    (goodEnv ["posts/hello-world.yaml"]).unmarshal "posts/hello-world.yaml"
      = .ok { samplePost "posts/hello-world.yaml" "# posts/hello-world.yaml" with
              Slug := "from-yaml", HTMLContent := "<b>stale</b>" } ∧
    ∃ p, (loadPosts (goodEnv ["posts/hello-world.yaml"]) staleWorld).1.posts.get "hello-world"
      = some p ∧ p.Slug = "hello-world" :=
  ⟨rfl,
   (slug_is_base_name_without_extension (goodEnv ["posts/hello-world.yaml"])
      "posts/hello-world.yaml" "hello-world" "posts/hello-world.yaml"
      { samplePost "posts/hello-world.yaml" "# posts/hello-world.yaml" with
        Slug := "from-yaml", HTMLContent := "<b>stale</b>" }
      "<p># posts/hello-world.yaml</p>" (by decide) rfl rfl (by decide)).2
      staleWorld ["posts/hello-world.yaml"] rfl (by simp) (by decide)⟩

/-- C2 as stated fails: with `posts/a.yaml` well-formed and `posts/b.yaml`
unparsable, `loadPosts` returns an error and leaves an index that holds the
post of `a` alone: neither the index that existed before the call nor the
empty one. -/
theorem failed_load_leaves_half_built_index :
    (badEnv ["posts/a.yaml", "posts/b.yaml"]).glob "posts/*.yaml"
      = .ok ["posts/a.yaml", "posts/b.yaml"] ∧
    (badEnv ["posts/a.yaml", "posts/b.yaml"]).readFile "posts/b.yaml" = .ok "posts/b.yaml" ∧
    (badEnv ["posts/a.yaml", "posts/b.yaml"]).unmarshal "posts/b.yaml"
      = .error (.msg "yaml: did not find expected key") ∧
    (loadPosts (badEnv ["posts/a.yaml", "posts/b.yaml"]) staleWorld).2 ≠ none ∧
    ¬ ((loadPosts (badEnv ["posts/a.yaml", "posts/b.yaml"]) staleWorld).1.posts
          = staleWorld.posts ∨
       (loadPosts (badEnv ["posts/a.yaml", "posts/b.yaml"]) staleWorld).1.posts
          = Index.empty) ∧
    (loadPosts (badEnv ["posts/a.yaml", "posts/b.yaml"]) staleWorld).1.posts
      = [("a", { samplePost "posts/a.yaml" "# posts/a.yaml" with
                 Slug := "a", HTMLContent := "<p># posts/a.yaml</p>" })] := by
  decide

/-- C2, amended: when an enumerated file fails to parse, `loadPosts` returns
an error, the one of the first failing file, and the index afterwards is the
one a pass over only the files enumerated before that file builds: it is the
same for every prior index, and it is empty when the first enumerated file is
the failing one. -/
theorem failed_load_leaves_index_of_preceding_files (env : Env) (w : World)
    (files : List String) (file yamlFile : String) (derr : Error)
    (hglob : env.glob "posts/*.yaml" = .ok files) (hfile : file ∈ files)
    (hread : env.readFile file = .ok yamlFile)
    (hdec : env.unmarshal yamlFile = .error derr) :
    ∃ err pre bad post, (loadPosts env w).2 = some err ∧
      files = pre ++ bad :: post ∧ (∀ g ∈ pre, fileError env g = none) ∧
      fileError env bad = some err ∧
      (loadPosts env w).1.posts
        = (loadPosts { env with glob := fun _ => .ok pre } w).1.posts ∧
      ({ env with glob := fun _ => .ok pre } : Env).glob "posts/*.yaml" = .ok pre ∧
      (loadPosts { env with glob := fun _ => .ok pre } w).2 = none ∧
      (∀ w2 : World, (loadPosts env w2).1.posts = (loadPosts env w).1.posts) ∧
      (pre = [] → (loadPosts env w).1.posts = Index.empty) := by
  have hbad : fileError env file ≠ none := by
    simp [fileError, fileOutcome, hread, hdec]
  obtain ⟨pre, bad, post, err, hsplit, hpre, hb⟩ :=
    exists_first_failure env files ⟨file, hfile, hbad⟩
  subst hsplit
  have hpre2 : ∀ g ∈ pre, fileError { env with glob := fun _ => .ok pre } g = none := hpre
  refine ⟨err, pre, bad, post, ?_, rfl, hpre, hb, ?_, rfl, ?_, ?_, ?_⟩
  · rw [loadPosts_fail env w pre post bad err hglob hpre hb]
  · rw [loadPosts_fail env w pre post bad err hglob hpre hb,
      loadPosts_ok { env with glob := fun _ => .ok pre } w pre rfl hpre2]
    rfl
  · rw [loadPosts_ok { env with glob := fun _ => .ok pre } w pre rfl hpre2]
  · intro w2
    exact (loadPosts_posts_err env w2 w).2
  · intro h0
    subst h0
    rw [loadPosts_fail env w [] post bad err hglob hpre hb]
    rfl

/-- Instance of the amended C2 on the store whose second file is unparsable. -/
theorem failed_load_leaves_index_of_preceding_files_witness :
    ∃ err pre bad post,
      (loadPosts (badEnv ["posts/a.yaml", "posts/b.yaml"]) staleWorld).2 = some err ∧
      ["posts/a.yaml", "posts/b.yaml"] = pre ++ bad :: post ∧
      (∀ g ∈ pre, fileError (badEnv ["posts/a.yaml", "posts/b.yaml"]) g = none) ∧
      fileError (badEnv ["posts/a.yaml", "posts/b.yaml"]) bad = some err ∧
      (loadPosts (badEnv ["posts/a.yaml", "posts/b.yaml"]) staleWorld).1.posts
        = (loadPosts { badEnv ["posts/a.yaml", "posts/b.yaml"] with
                       glob := fun _ => .ok pre } staleWorld).1.posts ∧
      ({ badEnv ["posts/a.yaml", "posts/b.yaml"] with
         glob := fun _ => .ok pre } : Env).glob "posts/*.yaml" = .ok pre ∧
      (loadPosts { badEnv ["posts/a.yaml", "posts/b.yaml"] with
                   glob := fun _ => .ok pre } staleWorld).2 = none ∧
      (∀ w2 : World,
        (loadPosts (badEnv ["posts/a.yaml", "posts/b.yaml"]) w2).1.posts
          = (loadPosts (badEnv ["posts/a.yaml", "posts/b.yaml"]) staleWorld).1.posts) ∧
      (pre = [] →
        (loadPosts (badEnv ["posts/a.yaml", "posts/b.yaml"]) staleWorld).1.posts
          = Index.empty) :=
  failed_load_leaves_index_of_preceding_files (badEnv ["posts/a.yaml", "posts/b.yaml"])
    staleWorld ["posts/a.yaml", "posts/b.yaml"] "posts/b.yaml" "posts/b.yaml"
    (.msg "yaml: did not find expected key") rfl (by simp) rfl rfl


/-- C3: once the enumeration `files` is obtained, `loadPosts` returns an error
exactly when reading, decoding or converting fails for some file; and when
`file` is the first failing file, the returned error is the wrapped error of
`file`, the calls made are the glob followed by the calls of the iterations on
the files up to `file` and no other, and the stores are those of the files
before `file`. -/
theorem error_iff_some_file_fails (env : Env) (w : World) (files : List String)
    (hglob : env.glob "posts/*.yaml" = .ok files) :
    ((loadPosts env w).2 ≠ none ↔ ∃ f ∈ files, fileError env f ≠ none) ∧
    ∀ (pre post : List String) (file : String) (err : Error),
      files = pre ++ file :: post → (∀ g ∈ pre, fileError env g = none) →
      fileError env file = some err →
      (loadPosts env w).2 = some err ∧
      (loadPosts env w).1.trace
        = w.trace ++ Event.glob "posts/*.yaml" :: (pre ++ [file]).flatMap (fileEvents env) ∧
      (loadPosts env w).1.posts = storeAll env pre Index.empty ∧
      loadPosts env w = loadPosts { env with glob := fun _ => .ok (pre ++ [file]) } w := by
  constructor
  · rw [not_iff_comm, loadPosts_none_iff env w files hglob]
    push_neg
    rfl
  · intro pre post file err hsplit hpre hfile
    subst hsplit
    have hpre2 : ∀ g ∈ pre,
        fileError { env with glob := fun _ => .ok (pre ++ [file]) } g = none := hpre
    have hfile2 :
        fileError { env with glob := fun _ => .ok (pre ++ [file]) } file = some err := hfile
    rw [loadPosts_fail env w pre post file err hglob hpre hfile,
      loadPosts_fail { env with glob := fun _ => .ok (pre ++ [file]) } w pre [] file err rfl
        hpre2 hfile2]
    exact ⟨rfl, rfl, rfl, rfl⟩

/-- Instance of C3: of three files the second is unparsable; the error is its
decoding error, wrapped, and the third file is never read. -/
theorem error_iff_some_file_fails_witness :
    (loadPosts (badEnv ["posts/a.yaml", "posts/b.yaml", "posts/c.yaml"]) freshWorld).2
      = some (.wrapf "Error unmarshalling file: " (.msg "yaml: did not find expected key")) ∧
    (loadPosts (badEnv ["posts/a.yaml", "posts/b.yaml", "posts/c.yaml"]) freshWorld).1.trace
      = freshWorld.trace ++ Event.glob "posts/*.yaml" ::
          (["posts/a.yaml"] ++ ["posts/b.yaml"]).flatMap
            (fileEvents (badEnv ["posts/a.yaml", "posts/b.yaml", "posts/c.yaml"])) ∧
    (loadPosts (badEnv ["posts/a.yaml", "posts/b.yaml", "posts/c.yaml"]) freshWorld).1.posts
      = storeAll (badEnv ["posts/a.yaml", "posts/b.yaml", "posts/c.yaml"]) ["posts/a.yaml"]
          Index.empty ∧
    loadPosts (badEnv ["posts/a.yaml", "posts/b.yaml", "posts/c.yaml"]) freshWorld
      = loadPosts { badEnv ["posts/a.yaml", "posts/b.yaml", "posts/c.yaml"] with
                    glob := fun _ => .ok (["posts/a.yaml"] ++ ["posts/b.yaml"]) } freshWorld :=
  (error_iff_some_file_fails (badEnv ["posts/a.yaml", "posts/b.yaml", "posts/c.yaml"])
    freshWorld ["posts/a.yaml", "posts/b.yaml", "posts/c.yaml"] rfl).2
    ["posts/a.yaml"] ["posts/c.yaml"] "posts/b.yaml"
    (.wrapf "Error unmarshalling file: " (.msg "yaml: did not find expected key"))
    rfl (by decide) (by decide)

/-- C4: when every file processes successfully and `file` is the last file of
the enumeration with its slug, the index holds exactly one entry under that
slug, and it is the post built from `file`. -/
theorem last_file_with_a_slug_wins (env : Env) (w : World) (pre post : List String)
    (file yamlFile : String) (postData : Post) (htmlContent : String)
    (hglob : env.glob "posts/*.yaml" = .ok (pre ++ file :: post))
    (hok : (loadPosts env w).2 = none)
    (hlast : ∀ g ∈ post, slugOf g ≠ slugOf file)
    (hread : env.readFile file = .ok yamlFile)
    (hdec : env.unmarshal yamlFile = .ok postData)
    (hmd : markdownToHTML env postData.MDContent = .ok htmlContent) :
    (loadPosts env w).1.posts.get (slugOf file)
      = some { postData with Slug := slugOf file, HTMLContent := htmlContent } ∧
    ((loadPosts env w).1.posts.filter (fun e => e.1 == slugOf file)).length = 1 := by
  have hall := (loadPosts_none_iff env w _ hglob).mp hok
  have hout := fileOutcome_ok env file yamlFile postData htmlContent hread hdec hmd
  have hget := storeAll_get_last env pre post file _ Index.empty hout hlast
  rw [loadPosts_ok env w _ hglob hall]
  exact ⟨hget, Index.count_key _ _ _ (storeAll_nodup env _ _ empty_nodup) hget⟩

/-- Instance of C4: two files with the base name `a.yaml`; the second wins. -/
theorem last_file_with_a_slug_wins_witness :
    slugOf "posts/a.yaml" = slugOf "drafts/a.yaml" ∧
    (loadPosts (badEnv ["posts/a.yaml", "drafts/a.yaml"]) staleWorld).1.posts.get
        (slugOf "drafts/a.yaml")
      = some { samplePost "drafts/a.yaml" "# drafts/a.yaml" with
               Slug := slugOf "drafts/a.yaml", HTMLContent := "<p># drafts/a.yaml</p>" } ∧
    ((loadPosts (badEnv ["posts/a.yaml", "drafts/a.yaml"]) staleWorld).1.posts.filter
        (fun e => e.1 == slugOf "drafts/a.yaml")).length = 1 :=
  ⟨by decide,
   last_file_with_a_slug_wins (badEnv ["posts/a.yaml", "drafts/a.yaml"]) staleWorld
     ["posts/a.yaml"] [] "drafts/a.yaml" "drafts/a.yaml"
     (samplePost "drafts/a.yaml" "# drafts/a.yaml") "<p># drafts/a.yaml</p>"
     rfl (by decide) (by simp) rfl (by decide) (by decide)⟩

/-- C5: after a successful `loadPosts`, every entry of the index holds a post
whose `HTMLContent` is the output of `markdownToHTML` on its `MDContent`, and
that `MDContent` is the body decoded in this pass from an enumerated file with
the entry's slug, whatever the prior index and whatever `HTMLContent` the
decoder left. -/
theorem html_is_rendered_from_body_of_same_pass (env : Env) (w : World)
    (files : List String) (hglob : env.glob "posts/*.yaml" = .ok files)
    (hok : (loadPosts env w).2 = none) :
    ∀ e ∈ (loadPosts env w).1.posts,
      markdownToHTML env e.2.MDContent = .ok e.2.HTMLContent ∧
      ∃ file ∈ files, ∃ yamlFile postData, e.1 = slugOf file ∧
        env.readFile file = .ok yamlFile ∧ env.unmarshal yamlFile = .ok postData ∧
        e.2.MDContent = postData.MDContent := by
  have hall := (loadPosts_none_iff env w files hglob).mp hok
  rw [loadPosts_ok env w files hglob hall]
  intro e he
  rcases storeAll_mem env files Index.empty e he with h0 | ⟨f, hf, hk, hout⟩
  · simp [Index.empty] at h0
  · obtain ⟨y, d, h, hread, hdec, hmd, hp⟩ := fileOutcome_ok_inv env f e.2 hout
    rw [hp]
    exact ⟨hmd, f, hf, y, d, hk, hread, hdec, rfl⟩

/-- Instance of C5 on a store whose decoder leaves a stale `HTMLContent`, with
a prior index that holds an old post: the entry of `posts/a.yaml`. -/
theorem html_is_rendered_from_body_of_same_pass_witness :
    markdownToHTML (goodEnv ["posts/a.yaml", "posts/b.yaml"]) "# posts/a.yaml"
      = .ok "<p># posts/a.yaml</p>" ∧
    ∃ file ∈ ["posts/a.yaml", "posts/b.yaml"], ∃ yamlFile postData, "a" = slugOf file ∧
      (goodEnv ["posts/a.yaml", "posts/b.yaml"]).readFile file = .ok yamlFile ∧
      (goodEnv ["posts/a.yaml", "posts/b.yaml"]).unmarshal yamlFile = .ok postData ∧
      "# posts/a.yaml" = postData.MDContent :=
  html_is_rendered_from_body_of_same_pass (goodEnv ["posts/a.yaml", "posts/b.yaml"])
    staleWorld ["posts/a.yaml", "posts/b.yaml"] rfl (by decide)
    ("a", { Title := "posts/a.yaml", Excerpt := "", Date := "2024-01-01",
            MDContent := "# posts/a.yaml", HTMLContent := "<p># posts/a.yaml</p>",
            Slug := "a" })
    (by decide)

/-- C6 as stated fails at the empty identifier: over a store without files
`loadPosts` succeeds and the empty string is the slug of no enumerated file
and is not found in the index, yet a GET of `/post/` is answered by the
redirect 303 to `/`, not by 404 "Post not found". -/
theorem empty_identifier_is_redirected :
    (goodEnv []).glob "posts/*.yaml" = .ok [] ∧
    (loadPosts (goodEnv []) staleWorld).2 = none ∧
    (loadPosts (goodEnv []) staleWorld).1.posts.get "" = none ∧
    (postHandler (goodEnv []) { Method := "GET", Path := "/post/" ++ "" } staleWorld).1
      = Reply.redirect "/" 303 ∧
    (postHandler (goodEnv []) { Method := "GET", Path := "/post/" ++ "" } staleWorld).1
      ≠ Reply.write 404 "Post not found" := by
  decide

/-- C6, amended: after a successful `loadPosts`, an identifier that is the slug
of no enumerated file is not found in the index, even when it was a key of the
prior index, and when it is not the empty string `postHandler` answers a GET of
`/post/<identifier>` with 404 "Post not found" and renders nothing; the slug
of an enumerated file is found, and when it is not empty the handler renders
the post found; for the empty identifier, the path `/post/`, the handler
answers with the redirect 303 to `/` on every store, whether or not the empty
string is a slug. -/
theorem lookup_found_iff_slug_of_enumerated_file (env : Env) (w : World)
    (files : List String) (hglob : env.glob "posts/*.yaml" = .ok files)
    (hok : (loadPosts env w).2 = none) :
    (∀ ident : String, (∀ f ∈ files, slugOf f ≠ ident) →
      (loadPosts env w).1.posts.get ident = none ∧
      (ident ≠ "" →
        postHandler env { Method := "GET", Path := "/post/" ++ ident } w
          = (Reply.write 404 "Post not found", (loadPosts env w).1))) ∧
    (∀ f ∈ files, ∃ p, (loadPosts env w).1.posts.get (slugOf f) = some p ∧
      (slugOf f ≠ "" →
        postHandler env { Method := "GET", Path := "/post/" ++ slugOf f } w
          = (Reply.render "posts" (.post p), (loadPosts env w).1))) ∧
    postHandler env { Method := "GET", Path := "/post/" } w
      = (Reply.redirect "/" 303, (loadPosts env w).1) := by
  have hall := (loadPosts_none_iff env w files hglob).mp hok
  have hload := loadPosts_ok env w files hglob hall
  refine ⟨?_, ?_, ?_⟩
  · intro ident hnot
    have hnone : (loadPosts env w).1.posts.get ident = none := by
      rw [hload]
      apply Index.get_eq_none
      intro hmem
      rcases storeAll_keys env files Index.empty ident hmem with h0 | ⟨f, hf, hk⟩
      · simp [Index.empty, Index.keys] at h0
      · exact hnot f hf hk.symm
    refine ⟨hnone, fun hne => ?_⟩
    rw [hload] at hnone
    simp only [postHandler, MethodGet, trimPrefix_append, hload]
    simp [hne, hnone, StatusNotFound]
  · intro f hf
    obtain ⟨g, _, p, _, _, hget⟩ := storeAll_get_some env files Index.empty f hall hf
    refine ⟨p, by rw [hload]; exact hget, fun hne => ?_⟩
    simp only [postHandler, MethodGet, trimPrefix_append, hload]
    simp [hne, hget]
  · have htrim : TrimPrefix "/post/" "/post/" = "" := by decide
    simp only [postHandler, MethodGet, htrim, hload]
    simp [StatusSeeOther]

/-- Instance of the amended C6: `old` was a key of the prior index and is the
slug of no file of the store; `a` is the slug of the one file; and a GET of
`/post/` is redirected although the store holds a file. -/
theorem lookup_found_iff_slug_of_enumerated_file_witness :
    staleWorld.posts.get "old" ≠ none ∧
    (loadPosts (goodEnv ["posts/a.yaml"]) staleWorld).1.posts.get "old" = none ∧
    postHandler (goodEnv ["posts/a.yaml"]) { Method := "GET", Path := "/post/" ++ "old" }
        staleWorld
      = (Reply.write 404 "Post not found",
         (loadPosts (goodEnv ["posts/a.yaml"]) staleWorld).1) ∧
    (∃ p, (loadPosts (goodEnv ["posts/a.yaml"]) staleWorld).1.posts.get
          (slugOf "posts/a.yaml") = some p ∧
      (slugOf "posts/a.yaml" ≠ "" →
        postHandler (goodEnv ["posts/a.yaml"])
            { Method := "GET", Path := "/post/" ++ slugOf "posts/a.yaml" } staleWorld
          = (Reply.render "posts" (.post p),
             (loadPosts (goodEnv ["posts/a.yaml"]) staleWorld).1))) ∧
    postHandler (goodEnv ["posts/a.yaml"]) { Method := "GET", Path := "/post/" } staleWorld
      = (Reply.redirect "/" 303, (loadPosts (goodEnv ["posts/a.yaml"]) staleWorld).1) :=
  ⟨by decide,
   ((lookup_found_iff_slug_of_enumerated_file (goodEnv ["posts/a.yaml"]) staleWorld
      ["posts/a.yaml"] rfl (by decide)).1 "old" (by decide)).1,
   ((lookup_found_iff_slug_of_enumerated_file (goodEnv ["posts/a.yaml"]) staleWorld
      ["posts/a.yaml"] rfl (by decide)).1 "old" (by decide)).2 (by decide),
   (lookup_found_iff_slug_of_enumerated_file (goodEnv ["posts/a.yaml"]) staleWorld
      ["posts/a.yaml"] rfl (by decide)).2.1 "posts/a.yaml" (by simp),
   (lookup_found_iff_slug_of_enumerated_file (goodEnv ["posts/a.yaml"]) staleWorld
      ["posts/a.yaml"] rfl (by decide)).2.2⟩

/-- C7: the error `loadPosts` returns and the index it leaves are the same for
every two prior states; in particular a second build right after the first
returns the same result and leaves the same index, and the index is the one
built from a fresh process. -/
theorem loadPosts_ignores_prior_index (env : Env) (w1 w2 : World) :
    (loadPosts env w1).2 = (loadPosts env w2).2 ∧
    (loadPosts env w1).1.posts = (loadPosts env w2).1.posts ∧
    (loadPosts env (loadPosts env w1).1).2 = (loadPosts env w1).2 ∧
    (loadPosts env (loadPosts env w1).1).1.posts = (loadPosts env w1).1.posts ∧
    (loadPosts env w1).1.posts = (loadPosts env { posts := Index.empty, trace := [] }).1.posts :=
  ⟨(loadPosts_posts_err env w1 w2).1, (loadPosts_posts_err env w1 w2).2,
   (loadPosts_posts_err env _ w1).1, (loadPosts_posts_err env _ w1).2,
   (loadPosts_posts_err env w1 _).2⟩

/-- C8: when the enumeration returns no file, `loadPosts` returns no error and
leaves the empty index, whatever the prior index. -/
theorem empty_store_gives_empty_index (env : Env) (w : World)
    (hglob : env.glob "posts/*.yaml" = .ok []) :
    (loadPosts env w).2 = none ∧ (loadPosts env w).1.posts = Index.empty := by
  rw [loadPosts_glob env w [] hglob]
  exact ⟨rfl, rfl⟩

/-- Instance of C8 with a prior index that holds a post. -/
theorem empty_store_gives_empty_index_witness :
    staleWorld.posts ≠ Index.empty ∧
    (loadPosts (goodEnv []) staleWorld).2 = none ∧
    (loadPosts (goodEnv []) staleWorld).1.posts = Index.empty :=
  ⟨by decide, empty_store_gives_empty_index (goodEnv []) staleWorld rfl⟩

/-- C9 as stated fails: a POST of `/about` is answered by `http.NotFound`,
status 404, not by 405. -/
theorem post_to_other_path_is_not_found :
    ({ Method := "POST", Path := "/about" } : Request).Method ≠ MethodGet ∧
    blogHandler (goodEnv []) { Method := "POST", Path := "/about" } staleWorld
      = (Reply.notFound, staleWorld) ∧
    (blogHandler (goodEnv []) { Method := "POST", Path := "/about" } staleWorld).1.status?
      ≠ some 405 := by
  decide

/-- C9, amended: for a request whose path is `/` and whose method is not GET,
`blogHandler` answers 405 "Method not allowed"; for a request whose path is
not `/` it answers 404 whatever the method, GET included; in both cases the
state is left as it was (no post is loaded) and no template is rendered. -/
theorem blogHandler_rejects_other_methods (env : Env) (r : Request) (w : World) :
    (r.Path = "/" → r.Method ≠ MethodGet →
      blogHandler env r w = (Reply.write 405 "Method not allowed", w)) ∧
    (r.Path ≠ "/" → blogHandler env r w = (Reply.notFound, w)) := by
  constructor
  · intro hpath hmethod
    simp [blogHandler, hpath, hmethod, StatusMethodNotAllowed]
  · intro hpath
    simp [blogHandler, hpath]

/-- Instance of the amended C9: a POST of `/` gets 405, a GET of `/about`
gets 404. -/
theorem blogHandler_rejects_other_methods_witness :
    blogHandler (goodEnv ["posts/a.yaml"]) { Method := "POST", Path := "/" } staleWorld
      = (Reply.write 405 "Method not allowed", staleWorld) ∧
    blogHandler (goodEnv ["posts/a.yaml"]) { Method := "GET", Path := "/about" } staleWorld
      = (Reply.notFound, staleWorld) :=
  ⟨(blogHandler_rejects_other_methods (goodEnv ["posts/a.yaml"])
      { Method := "POST", Path := "/" } staleWorld).1 rfl (by decide),
   (blogHandler_rejects_other_methods (goodEnv ["posts/a.yaml"])
      { Method := "GET", Path := "/about" } staleWorld).2 (by decide)⟩

/-- C10: two distinct paths `posts/<name>` whose names end in `.yaml` have
distinct slugs; hence after a successful `loadPosts` over distinct such paths
the index has as many entries as there are files and holds, for every file,
the post built from it. -/
theorem slugs_of_posts_directory_are_distinct :
    (∀ f g : String, matchesPostsGlob f = true → matchesPostsGlob g = true → f ≠ g →
      slugOf f ≠ slugOf g) ∧
    (∀ (env : Env) (w : World) (files : List String),
      env.glob "posts/*.yaml" = .ok files → (∀ f ∈ files, matchesPostsGlob f = true) →
      files.Nodup → (loadPosts env w).2 = none →
      (loadPosts env w).1.posts.len = files.length ∧
      ∀ f ∈ files, ∀ (yamlFile : String) (postData : Post) (htmlContent : String),
        env.readFile f = .ok yamlFile → env.unmarshal yamlFile = .ok postData →
        markdownToHTML env postData.MDContent = .ok htmlContent →
        (loadPosts env w).1.posts.get (slugOf f)
          = some { postData with Slug := slugOf f, HTMLContent := htmlContent }) := by
  constructor
  · intro f g hf hg hne hslug
    exact hne (slugOf_injOn f g hf hg hslug)
  · intro env w files hglob hmatch hnodup hok
    have hall := (loadPosts_none_iff env w files hglob).mp hok
    have hslugs : (files.map slugOf).Nodup := by
      rw [List.nodup_map_iff_inj_on hnodup]
      intro f hf g hg h
      exact slugOf_injOn f g (hmatch f hf) (hmatch g hg) h
    rw [loadPosts_ok env w files hglob hall]
    constructor
    · have := storeAll_length env files Index.empty hall hslugs
        (fun f _ h0 => by simp [Index.empty, Index.keys] at h0)
      simpa [Index.len, Index.empty] using this
    · intro f hf yamlFile postData htmlContent hread hdec hmd
      obtain ⟨pre, post, hsplit⟩ := List.append_of_mem hf
      subst hsplit
      have hout := fileOutcome_ok env f yamlFile postData htmlContent hread hdec hmd
      apply storeAll_get_last env pre post f _ Index.empty hout
      intro g hg hgf
      have hs : slugOf f ∉ pre.map slugOf ++ post.map slugOf := by
        have := hslugs
        rw [List.map_append, List.map_cons] at this
        exact (List.nodup_cons.mp (List.nodup_middle.mp this)).1
      apply hs
      rw [← hgf]
      exact List.mem_append_right _ (List.mem_map_of_mem _ hg)

/-- Instance of C10: two files of `posts/`. -/
theorem slugs_of_posts_directory_are_distinct_witness :
    slugOf "posts/a.yaml" ≠ slugOf "posts/b.yaml" ∧
    (loadPosts (goodEnv ["posts/a.yaml", "posts/b.yaml"]) staleWorld).1.posts.len
      = ["posts/a.yaml", "posts/b.yaml"].length :=
  ⟨slugs_of_posts_directory_are_distinct.1 "posts/a.yaml" "posts/b.yaml"
     (by decide) (by decide) (by decide),
   (slugs_of_posts_directory_are_distinct.2 (goodEnv ["posts/a.yaml", "posts/b.yaml"])
     staleWorld ["posts/a.yaml", "posts/b.yaml"] rfl (by decide) (by decide) (by decide)).1⟩

end Blog
